import Mathlib

/-
Verification of the audio-converter engine's specified behaviour.

The repository ships the engine's example client (src/example-pull.c) but not
the engine translation unit itself, so the Resampling Core, Slice/Chunking
Controller, Memory Planner and Callback Adapter are embedded here following the
specification's description of them (each such definition is marked
"Modelled from the spec:").  Constants and the producer of src/example-pull.c
are embedded directly from that source file.

Samples are modelled as exact rationals (the C code uses float; all claims are
stated modulo the documented floating-point tolerance, which exact rational
arithmetic satisfies trivially).  The pull-mode producer callback is modelled
as a pure stream `producer : channel → source index → sample`, which is what
the example's counter-based callback implements: the Counter always equals the
total number of frames delivered so far, so the sample delivered at global
source index i on channel c is a function of (c, i) alone.
-/

namespace DrB

/-- Data-flow direction of a converter (pull or push), from the spec's
enumerations (§6). -/
inductive Direction
  | pull
  | push
deriving DecidableEq

/-- Modelled from the spec: quality tiers, ordered low→high (§6); the example
uses the `good` tier (drb_audio_converter_quality_good). -/
inductive Quality
  | low
  | good
  | high
deriving DecidableEq

/-- Modelled from the spec: the enumerated set of supported sampling rates
("fixed set, e.g., 44100/48000/...", §6). -/
def supported_sampling_rates : List ℕ :=
  [8000, 11025, 16000, 22050, 24000, 32000, 44100, 48000, 88200, 96000]

/-- ConverterParams (spec §3): immutable construction parameters. -/
structure ConverterParams where
  sourceRate : ℕ
  targetRate : ℕ
  channelCount : ℕ
  maxFrameCount : ℕ
  direction : Direction
  quality : Quality
deriving DecidableEq

/-- Modelled from the spec: a resolved polyphase filter (§4.2) — tap count,
phase-resolution, per-phase coefficient table and group delay in taps. -/
structure FilterBank where
  taps : ℕ
  phaseCount : ℕ
  coef : ℕ → ℕ → ℚ
  groupDelay : ℕ

/-- Modelled from the spec: the Filter Bank resolution (§4.2) of the missing
drb-audio-converter.c — higher quality tiers select longer filters; the
coefficient table is a fixed read-only function of quality and phase. -/
def resolveFilter (p : ConverterParams) : FilterBank :=
  let taps : ℕ := match p.quality with
    | .low => 4
    | .good => 8
    | .high => 16
  { taps := taps
    phaseCount := 32
    coef := fun phase j =>
      max 0 (1 - |((j : ℚ) - ((taps : ℚ) - 1) / 2 - (phase : ℚ) / 32)| / taps)
    groupDelay := taps / 2 }

/-- Modelled from the spec: Latency (§3) — filter group delay expressed in
seconds at the source rate, recomputed from the parameters alone, hence
constant for a converter's lifetime. -/
def latencySeconds (p : ConverterParams) : ℚ :=
  ((resolveFilter p).groupDelay : ℚ) / (p.sourceRate : ℚ)

/-- Modelled from the spec: length of each per-channel History ring buffer —
"length ≥ filter tap reach, rounded" (§4.3); sized so that one internal chunk
of at most maxFrameCount output frames always fits. -/
def historyCapacity (p : ConverterParams) : ℕ :=
  (resolveFilter p).taps + p.maxFrameCount * p.sourceRate / p.targetRate + 1

/-- Converter (spec §3): the opaque state constructed in caller memory —
immutable parameters, the PhaseAccumulator (integer and fractional parts kept
separate; the fraction is phaseNum / targetRate), the count of source frames
consumed from the producer so far, and the per-channel History ring buffers
(oldest sample first). -/
structure Converter where
  params : ConverterParams
  phaseInt : ℕ
  phaseNum : ℕ
  consumed : ℕ
  history : List (List ℚ)
deriving DecidableEq

/-- Modelled from the spec: construct() initialises the Converter state in
place — zero phase, no source consumed, zero-filled History. -/
def initConverter (p : ConverterParams) : Converter :=
  { params := p
    phaseInt := 0
    phaseNum := 0
    consumed := 0
    history := (List.range p.channelCount).map
      (fun _ => List.replicate (historyCapacity p) 0) }

/-- Read position z of a History ring buffer (zero outside the stored range). -/
def histGet (l : List ℚ) (z : ℤ) : ℚ :=
  if 0 ≤ z then l.getD z.toNat 0 else 0

/-- The source stream extended to integer indices: the zero pre-roll before
index 0, the producer's samples from index 0 on. -/
def sampleAt (producer : ℕ → ℕ → ℚ) (c : ℕ) (z : ℤ) : ℚ :=
  if 0 ≤ z then producer c z.toNat else 0

/-- Modelled from the spec: step 2 of the Resampling Core (§4.3) — copy m
freshly delivered source samples into each channel's History ring buffer,
evicting the m oldest entries. -/
def pullFrames (producer : ℕ → ℕ → ℚ) (st : Converter) (m : ℕ) : Converter :=
  { st with
    consumed := st.consumed + m
    history := (List.range st.params.channelCount).map (fun c =>
      ((st.history.getD c []) ++
        (List.range m).map (fun i => producer c (st.consumed + i))).drop m) }

/-- The filter phase of the next output frame: fractional position quantised to
the Filter Bank's phase resolution (§4.3 step 3). -/
def phaseIndex (st : Converter) : ℕ :=
  st.phaseNum * (resolveFilter st.params).phaseCount / st.params.targetRate

/-- Modelled from the spec: step 3 of the Resampling Core (§4.3) — produce one
output frame: for each channel the weighted sum of the relevant History window
with the phase-selected coefficients, then advance the PhaseAccumulator by
sourceRate/targetRate keeping integer and fractional parts separate. -/
def renderFrame (st : Converter) : List ℚ × Converter :=
  let fb := resolveFilter st.params
  let cap := historyCapacity st.params
  let out := (List.range st.params.channelCount).map (fun c =>
    ((List.range fb.taps).map (fun j =>
      fb.coef (phaseIndex st) j *
        histGet (st.history.getD c [])
          ((st.phaseInt : ℤ) - (j : ℤ) - (st.consumed : ℤ) + (cap : ℤ)))).sum)
  let num := st.phaseNum + st.params.sourceRate
  (out,
    { st with
      phaseInt := st.phaseInt + num / st.params.targetRate
      phaseNum := num % st.params.targetRate })

/-- Render n consecutive output frames (frame-major: one inner list of
channelCount samples per output frame). -/
def renderN (st : Converter) : ℕ → List (List ℚ) × Converter
  | 0 => ([], st)
  | n + 1 =>
    let r1 := renderFrame st
    let r2 := renderN r1.2 n
    (r1.1 :: r2.1, r2.2)

/-- Modelled from the spec: step 1 of the Resampling Core (§4.3) — the total
number of consumed source frames needed so that the History holds every sample
read while rendering the next n output frames (the integer position of the
last of those frames, plus one). -/
def neededConsumed (st : Converter) : ℕ → ℕ
  | 0 => st.consumed
  | n + 1 =>
    st.phaseInt + (st.phaseNum + n * st.params.sourceRate) / st.params.targetRate + 1

/-- Modelled from the spec: one internal chunk (§4.3 steps 1-3): compute the
new-source-frame count m, invoke the producer callback once for m frames
passing the current Latency (the invocation is recorded as the
(latency, frame count) event), feed the History, then render the n output
frames.  Returns (output frames, callback event, new state). -/
def processChunk (producer : ℕ → ℕ → ℚ) (st : Converter) (n : ℕ) :
    List (List ℚ) × (ℚ × ℕ) × Converter :=
  let m := neededConsumed st n - st.consumed
  let st1 := pullFrames producer st m
  let r := renderN st1 n
  (r.1, (latencySeconds st.params, m), r.2)

/-- Modelled from the spec: the Slice/Chunking Controller's decomposition of a
request for n output frames into internal chunks of at most maxN frames each
(§4.4). -/
def chunkSizes (maxN : ℕ) (n : ℕ) : List ℕ :=
  if h0 : n = 0 then []
  else if hm : maxN = 0 then [n]
  else if hn : n ≤ maxN then [n]
  else maxN :: chunkSizes maxN (n - maxN)
termination_by n
decreasing_by omega

/-- Run the chunk loop over a list of chunk sizes, concatenating outputs and
accumulating the callback events in order. -/
def processLoop (producer : ℕ → ℕ → ℚ) (st : Converter) :
    List ℕ → List (List ℚ) × List (ℚ × ℕ) × Converter
  | [] => ([], [], st)
  | c :: cs =>
    let r1 := processChunk producer st c
    let r2 := processLoop producer r1.2.2 cs
    (r1.1 ++ r2.1, r1.2.1 :: r2.2.1, r2.2.2)

/-- Modelled from the spec: drb_audio_converter_process in pull mode — accepts
any non-negative frame count, splits it into chunks of at most maxFrameCount
(§4.4) and drives the Resampling Core per chunk.  Output frames are returned
frame-major together with the list of producer-callback invocations
(latency, requested frame count). -/
def drb_audio_converter_process (producer : ℕ → ℕ → ℚ) (st : Converter)
    (n : ℕ) : List (List ℚ) × List (ℚ × ℕ) × Converter :=
  processLoop producer st (chunkSizes st.params.maxFrameCount n)

/-- The caller's slice loop (src/example-pull.c lines 156-185): one process()
call per slice, with the output buffer offsets advanced by the slice sizes —
modelled by concatenating the outputs of the successive calls. -/
def processSlices (producer : ℕ → ℕ → ℚ) (st : Converter) :
    List ℕ → List (List ℚ) × List (ℚ × ℕ) × Converter
  | [] => ([], [], st)
  | s :: ss =>
    let r1 := drb_audio_converter_process producer st s
    let r2 := processSlices producer r1.2.2 ss
    (r1.1 ++ r2.1, r1.2.1 ++ r2.2.1, r2.2.2)

/-- Modelled from the spec: the Memory Planner's converter alignment (a fixed
constant; the concrete value is not observable in the claims). -/
def converter_alignment : ℕ := 64

/-- Modelled from the spec: the Memory Planner's converter size — a function of
the resolved filter configuration and the parameters (header plus per-channel
History storage plus per-channel staging for maxFrameCount frames). -/
def converter_size (p : ConverterParams) : ℕ :=
  64 + p.channelCount * (historyCapacity p * 4 + p.maxFrameCount * 4)

/-- Validity of construction parameters (spec §3 invariant): the rate pair is
drawn from the supported enumerated set, channel count ≥ 1, max frame count
≥ 1. -/
def validParams (sourceRate targetRate channelCount maxFrameCount : ℕ) : Prop :=
  sourceRate ∈ supported_sampling_rates ∧ targetRate ∈ supported_sampling_rates ∧
    0 < channelCount ∧ 0 < maxFrameCount

instance (s t c m : ℕ) : Decidable (validParams s t c m) := by
  unfold validParams; infer_instance

/-- Modelled from the spec: drb_audio_converter_alignment_and_size (§4.1, §6) —
pure planning entry point; returns none (the C API's false/negative result) on
invalid parameters, otherwise the required alignment and byte size. -/
def drb_audio_converter_alignment_and_size (sourceRate targetRate channelCount
    maxFrameCount : ℕ) (direction : Direction) (quality : Quality) :
    Option (ℕ × ℕ) :=
  if validParams sourceRate targetRate channelCount maxFrameCount then
    some (converter_alignment,
      converter_size
        ⟨sourceRate, targetRate, channelCount, maxFrameCount, direction, quality⟩)
  else none

/-- Modelled from the spec: drb_audio_converter_construct (§6, §7) — validates
the parameters and the caller-supplied memory block (address alignment and
size), initialises the Converter in place and returns the handle, which is the
caller's memory address itself ("created in place by construct()", §3; the
example accordingly passes converter_memory to process, src/example-pull.c
line 172).  Returns none (the C API's null result) on any validation
failure. -/
def drb_audio_converter_construct (memoryAddr memorySize : ℕ)
    (sourceRate targetRate channelCount maxFrameCount : ℕ)
    (direction : Direction) (quality : Quality) : Option (ℕ × Converter) :=
  match drb_audio_converter_alignment_and_size sourceRate targetRate
    channelCount maxFrameCount direction quality with
  | none => none
  | some al_sz =>
    if memoryAddr % al_sz.1 = 0 ∧ al_sz.2 ≤ memorySize then
      some (memoryAddr,
        initConverter
          ⟨sourceRate, targetRate, channelCount, maxFrameCount, direction, quality⟩)
    else none

/-- Modelled from the spec: drb_audio_converter_work_memory_alignment_and_size
(§4.1) — work-buffer planning from an already-constructed converter; total, no
failure branch. -/
def drb_audio_converter_work_memory_alignment_and_size (st : Converter) :
    ℕ × ℕ :=
  (converter_alignment,
    st.params.channelCount * (st.params.maxFrameCount * 4 +
      (resolveFilter st.params).taps * 4))

/-- Conversion parameters fixed by the example (src/example-pull.c lines
23-28). -/
def source_sampling_rate : ℕ := 44100

/-- Target rate of the example (src/example-pull.c line 24). -/
def target_sampling_rate : ℕ := 48000

/-- Channel count of the example (src/example-pull.c line 25). -/
def channel_count : ℕ := 2

/-- Maximum frame count of the example (src/example-pull.c line 26). -/
def max_frame_count : ℕ := 256

/-- Total frames processed by the example (src/example-pull.c line 28). -/
def total_frame_count : ℕ := 400

/-- The example's per-call slice sizes (src/example-pull.c line 31). -/
def slices : List ℕ := [13, 17, 4, 7, 5, 4, 21, 29, 300]

/-- The example's construction parameters assembled (src/example-pull.c lines
116-126). -/
def example_params : ConverterParams :=
  ⟨source_sampling_rate, target_sampling_rate, channel_count, max_frame_count,
    .pull, .good⟩

/-- A decimating parameter set (source rate above target rate) drawn from the
supported enumerated rates: 48000 → 44100, mono, maxFrameCount 256. -/
def decimating_params : ConverterParams :=
  ⟨48000, 44100, 1, 256, .pull, .good⟩

/-- The sample value written by produce_frames for a given Counter offset
(src/example-pull.c line 73): frame + offset + 100 * channel. -/
def produce_frames_sample (offset channel frame : ℕ) : ℚ :=
  (frame : ℚ) + (offset : ℚ) + 100 * (channel : ℚ)

/-- The logical source stream that produce_frames delivers across calls: the
Counter equals the number of frames delivered so far, so global source index i
on channel c receives i + 100 * c (src/example-pull.c lines 48-80). -/
def exampleProducer (channel i : ℕ) : ℚ := (i : ℚ) + 100 * (channel : ℚ)

/-- A producer pointwise equal to exampleProducer but syntactically distinct;
used to exhibit a second run delivering identical samples. -/
def altProducer (channel i : ℕ) : ℚ := 100 * (channel : ℚ) + (i : ℚ)

/-! ### Canonical closed-form semantics

The state of a converter after any sequence of calls is a function of the
total number of output frames produced so far; the following definitions give
that closed form and the per-frame closed form of the output stream. -/

/-- Integer source position of output frame k: ⌊k · sourceRate/targetRate⌋. -/
def pos (p : ConverterParams) (k : ℕ) : ℕ := k * p.sourceRate / p.targetRate

/-- Fractional-part numerator of the PhaseAccumulator before output frame k. -/
def phaseRem (p : ConverterParams) (k : ℕ) : ℕ := k * p.sourceRate % p.targetRate

/-- Source frames consumed once k output frames have been produced: the
integer position of the last produced frame, plus one. -/
def consumedAt (p : ConverterParams) : ℕ → ℕ
  | 0 => 0
  | k + 1 => pos p k + 1

/-- Contents of a channel's History ring buffer when consumption stands at
consumed: the last historyCapacity samples of the extended source stream. -/
def windowAt (producer : ℕ → ℕ → ℚ) (p : ConverterParams) (c : ℕ)
    (consumed : ℕ) : List ℚ :=
  (List.range (historyCapacity p)).map (fun u : ℕ =>
    sampleAt producer c
      ((consumed : ℤ) - (historyCapacity p : ℤ) + (u : ℤ)))

/-- Mid-chunk state: the phase stands before output frame k while the History
already holds the source samples needed through output frame b - 1. -/
def midState (producer : ℕ → ℕ → ℚ) (p : ConverterParams) (k b : ℕ) :
    Converter :=
  { params := p
    phaseInt := pos p k
    phaseNum := phaseRem p k
    consumed := consumedAt p b
    history := (List.range p.channelCount).map (fun c =>
      windowAt producer p c (consumedAt p b)) }

/-- The converter state between calls, after k output frames in total. -/
def stateAt (producer : ℕ → ℕ → ℚ) (p : ConverterParams) (k : ℕ) : Converter :=
  midState producer p k k

/-- Quantised filter phase of output frame k. -/
def phaseIdxAt (p : ConverterParams) (k : ℕ) : ℕ :=
  phaseRem p k * (resolveFilter p).phaseCount / p.targetRate

/-- Closed form of output frame k (one sample per channel): the phase-selected
weighted sum over the source-stream window ending at the frame's integer
position. -/
def canonicalFrame (producer : ℕ → ℕ → ℚ) (p : ConverterParams) (k : ℕ) :
    List ℚ :=
  (List.range p.channelCount).map (fun c =>
    ((List.range (resolveFilter p).taps).map (fun j =>
      (resolveFilter p).coef (phaseIdxAt p k) j *
        sampleAt producer c ((pos p k : ℤ) - (j : ℤ)))).sum)

/-- Output frames a, a+1, ..., a+n-1 in closed form. -/
def canonicalFrames (producer : ℕ → ℕ → ℚ) (p : ConverterParams) (a n : ℕ) :
    List (List ℚ) :=
  (List.range n).map (fun i => canonicalFrame producer p (a + i))

/-- Closed form of the callback-event list for a run of chunks starting after
a total of a output frames: one event per chunk, carrying the constant latency
and the number of new source frames the chunk consumes. -/
def chunkLog (p : ConverterParams) : ℕ → List ℕ → List (ℚ × ℕ)
  | _, [] => []
  | a, c :: cs =>
    (latencySeconds p, consumedAt p (a + c) - consumedAt p a) ::
      chunkLog p (a + c) cs

/-- All internal chunk sizes generated by a list of slices. -/
def allChunks (maxN : ℕ) : List ℕ → List ℕ
  | [] => []
  | s :: ss => chunkSizes maxN s ++ allChunks maxN ss

/-- The fractional input position tracked by the PhaseAccumulator, read as an
exact rational: integer part plus fractional numerator over targetRate. -/
def phasePosition (st : Converter) : ℚ :=
  (st.phaseInt : ℚ) + (st.phaseNum : ℚ) / (st.params.targetRate : ℚ)

/-! ### Arithmetic helper lemmas -/

lemma div_add_step (t x y : ℕ) (ht : 0 < t) :
    x / t + (x % t + y) / t = (x + y) / t := by
  conv_rhs => rw [← Nat.div_add_mod x t, Nat.add_assoc, Nat.mul_add_div ht]

lemma mod_add_step (t x y : ℕ) :
    (x % t + y) % t = (x + y) % t := by
  conv_rhs => rw [← Nat.div_add_mod x t, Nat.add_assoc, Nat.mul_add_mod]

lemma pos_succ (p : ConverterParams) (k : ℕ) (ht : 0 < p.targetRate) :
    pos p (k + 1) = pos p k + (phaseRem p k + p.sourceRate) / p.targetRate := by
  unfold pos phaseRem
  rw [div_add_step _ _ _ ht, Nat.succ_mul]

lemma phaseRem_succ (p : ConverterParams) (k : ℕ) :
    phaseRem p (k + 1) = (phaseRem p k + p.sourceRate) % p.targetRate := by
  unfold phaseRem
  rw [mod_add_step, Nat.succ_mul]

lemma pos_mono (p : ConverterParams) {a b : ℕ} (h : a ≤ b) :
    pos p a ≤ pos p b :=
  Nat.div_le_div_right (Nat.mul_le_mul_right _ h)

lemma consumedAt_mono (p : ConverterParams) {a b : ℕ} (h : a ≤ b) :
    consumedAt p a ≤ consumedAt p b := by
  cases a with
  | zero => exact Nat.zero_le _
  | succ a' =>
    cases b with
    | zero => omega
    | succ b' =>
      have := pos_mono p (show a' ≤ b' by omega)
      simpa [consumedAt] using this

lemma pos_lt_consumedAt (p : ConverterParams) {k b : ℕ} (h : k < b) :
    pos p k < consumedAt p b := by
  cases b with
  | zero => omega
  | succ b' =>
    have := pos_mono p (show k ≤ b' by omega)
    simpa [consumedAt] using Nat.lt_succ_of_le this

lemma add_div_le (t x y : ℕ) (ht : 0 < t) :
    (x + y) / t ≤ x / t + y / t + 1 := by
  rw [Nat.add_div ht]
  split <;> omega

/-- Bound on the source advance across one chunk of at most maxN frames. -/
lemma pos_chunk_bound (p : ConverterParams) (a d : ℕ) (ht : 0 < p.targetRate)
    (hd : d ≤ p.maxFrameCount) :
    pos p (a + d) ≤ pos p a + p.maxFrameCount * p.sourceRate / p.targetRate + 1 := by
  unfold pos
  have h1 : (a + d) * p.sourceRate = a * p.sourceRate + d * p.sourceRate := by ring
  rw [h1]
  have h2 := add_div_le p.targetRate (a * p.sourceRate) (d * p.sourceRate) ht
  have h3 : d * p.sourceRate / p.targetRate ≤
      p.maxFrameCount * p.sourceRate / p.targetRate :=
    Nat.div_le_div_right (Nat.mul_le_mul_right _ hd)
  omega

/-! ### List helper lemmas -/

lemma getD_map_range {α : Type} (f : ℕ → α) (n c : ℕ) (d : α) (h : c < n) :
    ((List.range n).map f).getD c d = f c := by
  have hlen : c < ((List.range n).map f).length := by simpa using h
  simp [List.getD_eq_getElem?_getD, List.getElem?_eq_getElem hlen]

lemma windowAt_getD (producer : ℕ → ℕ → ℚ) (p : ConverterParams) (c C u : ℕ)
    (h : u < historyCapacity p) :
    (windowAt producer p c C).getD u 0 =
      sampleAt producer c ((C : ℤ) - (historyCapacity p : ℤ) + (u : ℤ)) := by
  unfold windowAt
  exact getD_map_range _ _ _ _ h

lemma windowAt_length (producer : ℕ → ℕ → ℚ) (p : ConverterParams) (c C : ℕ) :
    (windowAt producer p c C).length = historyCapacity p := by
  unfold windowAt
  rw [List.length_map, List.length_range]

lemma windowAt_getElem (producer : ℕ → ℕ → ℚ) (p : ConverterParams) (c C u : ℕ)
    (h : u < (windowAt producer p c C).length) :
    (windowAt producer p c C)[u] =
      sampleAt producer c ((C : ℤ) - (historyCapacity p : ℤ) + (u : ℤ)) := by
  unfold windowAt at h ⊢
  simp

lemma canonicalFrames_cons (producer : ℕ → ℕ → ℚ) (p : ConverterParams)
    (a n : ℕ) :
    canonicalFrame producer p a :: canonicalFrames producer p (a + 1) n =
      canonicalFrames producer p a (n + 1) := by
  unfold canonicalFrames
  rw [List.range_succ_eq_map, List.map_cons, List.map_map]
  congr 1
  apply List.map_congr_left
  intro i _
  simp only [Function.comp_apply]
  congr 1
  omega

lemma canonicalFrames_append (producer : ℕ → ℕ → ℚ) (p : ConverterParams)
    (a m n : ℕ) :
    canonicalFrames producer p a m ++ canonicalFrames producer p (a + m) n =
      canonicalFrames producer p a (m + n) := by
  unfold canonicalFrames
  rw [List.range_add m n, List.map_append, List.map_map]
  congr 1
  apply List.map_congr_left
  intro i _
  simp only [Function.comp_apply]
  congr 1
  omega

lemma chunkLog_append (p : ConverterParams) (a : ℕ) (l₁ l₂ : List ℕ) :
    chunkLog p a (l₁ ++ l₂) =
      chunkLog p a l₁ ++ chunkLog p (a + l₁.sum) l₂ := by
  induction l₁ generalizing a with
  | nil => simp [chunkLog]
  | cons c cs ih =>
    simp only [List.cons_append, chunkLog, List.sum_cons, List.append_eq]
    rw [ih (a + c)]
    congr 3
    omega

/-- The freshly constructed converter is the canonical state at frame 0,
whatever the producer. -/
lemma initConverter_eq_stateAt (producer : ℕ → ℕ → ℚ) (p : ConverterParams) :
    initConverter p = stateAt producer p 0 := by
  unfold initConverter stateAt midState
  simp only [Converter.mk.injEq, true_and]
  refine ⟨by simp [pos], by simp [phaseRem], rfl, ?_⟩
  apply List.map_congr_left
  intro c _
  symm
  rw [List.eq_replicate_iff]
  constructor
  · exact windowAt_length producer p c _
  · intro b hb
    unfold windowAt at hb
    obtain ⟨u, hu, rfl⟩ := List.mem_map.mp hb
    rw [List.mem_range] at hu
    have hz : ¬ (0 : ℤ) ≤
        (consumedAt p 0 : ℤ) - (historyCapacity p : ℤ) + (u : ℤ) := by
      simp only [consumedAt]
      push_cast
      omega
    unfold sampleAt
    exact if_neg hz

/-! ### Projection lemmas -/

lemma midState_params (producer : ℕ → ℕ → ℚ) (p : ConverterParams) (k b : ℕ) :
    (midState producer p k b).params = p := rfl

lemma midState_phaseInt (producer : ℕ → ℕ → ℚ) (p : ConverterParams) (k b : ℕ) :
    (midState producer p k b).phaseInt = pos p k := rfl

lemma midState_phaseNum (producer : ℕ → ℕ → ℚ) (p : ConverterParams) (k b : ℕ) :
    (midState producer p k b).phaseNum = phaseRem p k := rfl

lemma midState_consumed (producer : ℕ → ℕ → ℚ) (p : ConverterParams) (k b : ℕ) :
    (midState producer p k b).consumed = consumedAt p b := rfl

lemma midState_history_getD (producer : ℕ → ℕ → ℚ) (p : ConverterParams)
    (k b c : ℕ) (hc : c < p.channelCount) :
    (midState producer p k b).history.getD c [] =
      windowAt producer p c (consumedAt p b) := by
  unfold midState
  exact getD_map_range _ _ _ _ hc

lemma stateAt_consumed (producer : ℕ → ℕ → ℚ) (p : ConverterParams) (k : ℕ) :
    (stateAt producer p k).consumed = consumedAt p k := rfl

/-! ### The Resampling Core against the closed forms -/

/-- Rendering one frame advances the PhaseAccumulator from frame k to frame
k + 1 and touches neither History nor consumption. -/
lemma renderFrame_state (producer : ℕ → ℕ → ℚ) (p : ConverterParams) (k b : ℕ)
    (ht : 0 < p.targetRate) :
    (renderFrame (midState producer p k b)).2 = midState producer p (k + 1) b := by
  unfold renderFrame
  dsimp only
  unfold midState
  simp only [Converter.mk.injEq, true_and, and_true]
  exact ⟨(pos_succ p k ht).symm, (phaseRem_succ p k).symm⟩

/-- Rendering one frame from a mid-chunk state yields the closed-form frame:
every History read resolves to the corresponding source-stream sample. -/
lemma renderFrame_out (producer : ℕ → ℕ → ℚ) (p : ConverterParams) (k b : ℕ)
    (hkb : k < b)
    (hcap : consumedAt p b + (resolveFilter p).taps ≤
      pos p k + historyCapacity p + 1) :
    (renderFrame (midState producer p k b)).1 = canonicalFrame producer p k := by
  have hposb := pos_lt_consumedAt p hkb
  unfold renderFrame canonicalFrame
  dsimp only
  simp only [midState_params, midState_phaseInt, midState_phaseNum,
    midState_consumed]
  apply List.map_congr_left
  intro c hc
  rw [List.mem_range] at hc
  simp only [midState_history_getD producer p k b c hc]
  congr 1
  apply List.map_congr_left
  intro j hj
  rw [List.mem_range] at hj
  have hz0 : (0 : ℤ) ≤ (pos p k : ℤ) - (j : ℤ) - (consumedAt p b : ℤ) +
      (historyCapacity p : ℤ) := by omega
  have hzu : ((pos p k : ℤ) - (j : ℤ) - (consumedAt p b : ℤ) +
      (historyCapacity p : ℤ)).toNat < historyCapacity p := by omega
  unfold histGet
  rw [if_pos hz0, windowAt_getD producer p c _ _ hzu]
  have harg : (consumedAt p b : ℤ) - (historyCapacity p : ℤ) +
      (((pos p k : ℤ) - (j : ℤ) - (consumedAt p b : ℤ) +
        (historyCapacity p : ℤ)).toNat : ℤ) = (pos p k : ℤ) - (j : ℤ) := by
    omega
  rw [harg]
  rfl

/-- Rendering n frames from a mid-chunk state yields the n closed-form frames
and lands exactly on the canonical between-calls state. -/
lemma renderN_spec (producer : ℕ → ℕ → ℚ) (p : ConverterParams)
    (ht : 0 < p.targetRate) :
    ∀ (n k b : ℕ), k + n = b →
    consumedAt p b + (resolveFilter p).taps ≤ pos p k + historyCapacity p + 1 →
    renderN (midState producer p k b) n =
      (canonicalFrames producer p k n, stateAt producer p b)
  | 0, k, b, hb, _ => by
    subst hb
    simp [renderN, canonicalFrames, stateAt]
  | n + 1, k, b, hb, hcap => by
    have hkb : k < b := by omega
    have hcap1 : consumedAt p b + (resolveFilter p).taps ≤
        pos p (k + 1) + historyCapacity p + 1 := by
      have := pos_mono p (show k ≤ k + 1 by omega)
      omega
    unfold renderN
    dsimp only
    rw [renderFrame_out producer p k b hkb hcap,
      renderFrame_state producer p k b ht,
      renderN_spec producer p ht n (k + 1) b (by omega) hcap1]
    rw [canonicalFrames_cons]

/-- Feeding exactly the source frames needed up to frame b turns the canonical
state after a frames into the corresponding mid-chunk state. -/
lemma pullFrames_spec (producer : ℕ → ℕ → ℚ) (p : ConverterParams) (a b : ℕ)
    (hab : a ≤ b) :
    pullFrames producer (stateAt producer p a)
        (consumedAt p b - consumedAt p a) =
      midState producer p a b := by
  have hmono := consumedAt_mono p hab
  unfold pullFrames stateAt midState
  dsimp only
  have hcons : consumedAt p a + (consumedAt p b - consumedAt p a) =
      consumedAt p b := by omega
  rw [hcons]
  congr 1
  apply List.map_congr_left
  intro c hc
  rw [List.mem_range] at hc
  rw [getD_map_range _ _ _ _ hc]
  apply List.ext_getElem
  · simp [windowAt_length]
  intro i h1 h2
  rw [windowAt_length] at h2
  rw [List.getElem_drop]
  by_cases hcase : consumedAt p b - consumedAt p a + i <
      (windowAt producer p c (consumedAt p a)).length
  · rw [List.getElem_append_left hcase]
    rw [windowAt_length] at hcase
    rw [windowAt_getElem producer p c _ _ (by rw [windowAt_length]; omega),
      windowAt_getElem producer p c _ _ (by rw [windowAt_length]; omega)]
    congr 1
    omega
  · rw [List.getElem_append_right (by omega)]
    rw [windowAt_length] at hcase
    rw [windowAt_getElem producer p c _ _ (by rw [windowAt_length]; omega)]
    simp only [windowAt_length, List.getElem_map, List.getElem_range]
    unfold sampleAt
    rw [if_pos (by omega)]
    congr 1
    omega

/-- On a canonical state, step 1 of the Resampling Core computes exactly the
consumption target of the canonical state n frames later. -/
lemma neededConsumed_eq (producer : ℕ → ℕ → ℚ) (p : ConverterParams) (a n : ℕ)
    (ht : 0 < p.targetRate) :
    neededConsumed (stateAt producer p a) (n + 1) = consumedAt p (a + (n + 1)) := by
  unfold neededConsumed
  simp only [stateAt, midState_phaseInt, midState_phaseNum, midState_params]
  have hp : pos p a + (phaseRem p a + n * p.sourceRate) / p.targetRate =
      pos p (a + n) := by
    unfold pos phaseRem
    rw [div_add_step _ _ _ ht]
    congr 1
    ring
  have hc : consumedAt p (a + (n + 1)) = pos p (a + n) + 1 := by
    simp [consumedAt, show a + (n + 1) = (a + n) + 1 by omega]
  omega

/-- One internal chunk of n frames (1 ≤ n ≤ maxFrameCount) from the canonical
state after a frames: one callback event of the constant latency and the
canonical source-consumption increment, the n closed-form output frames, and
the canonical state after a + n frames. -/
lemma processChunk_spec (producer : ℕ → ℕ → ℚ) (p : ConverterParams) (a n : ℕ)
    (ht : 0 < p.targetRate) (h1 : 1 ≤ n) (h2 : n ≤ p.maxFrameCount) :
    processChunk producer (stateAt producer p a) n =
      (canonicalFrames producer p a n,
        (latencySeconds p, consumedAt p (a + n) - consumedAt p a),
        stateAt producer p (a + n)) := by
  obtain ⟨n', rfl⟩ : ∃ n', n = n' + 1 := ⟨n - 1, by omega⟩
  have hcap : consumedAt p (a + (n' + 1)) + (resolveFilter p).taps ≤
      pos p a + historyCapacity p + 1 := by
    have hb := pos_chunk_bound p a n' ht (by omega)
    have hc : consumedAt p (a + (n' + 1)) = pos p (a + n') + 1 := by
      simp [consumedAt, show a + (n' + 1) = (a + n') + 1 by omega]
    unfold historyCapacity
    omega
  unfold processChunk
  dsimp only
  rw [neededConsumed_eq producer p a n' ht, stateAt_consumed,
    pullFrames_spec producer p a (a + (n' + 1)) (by omega),
    renderN_spec producer p ht (n' + 1) a (a + (n' + 1)) rfl hcap]
  rfl

/-! ### The Slice/Chunking Controller -/

lemma chunkSizes_zero (maxN : ℕ) : chunkSizes maxN 0 = [] := by
  unfold chunkSizes
  simp

lemma chunkSizes_sum (maxN : ℕ) : ∀ n, (chunkSizes maxN n).sum = n := by
  intro n
  induction n using Nat.strong_induction_on with
  | _ n ih =>
    unfold chunkSizes
    split_ifs with h0 hm hn
    · simp [h0]
    · simp
    · simp
    · have := ih (n - maxN) (by omega)
      simp only [List.sum_cons, this]
      omega

lemma chunkSizes_mem (maxN : ℕ) (hmax : 0 < maxN) :
    ∀ n, ∀ c ∈ chunkSizes maxN n, 1 ≤ c ∧ c ≤ maxN := by
  intro n
  induction n using Nat.strong_induction_on with
  | _ n ih =>
    unfold chunkSizes
    split_ifs with h0 hm hn
    · simp
    · omega
    · intro c hc
      rw [List.mem_singleton] at hc
      omega
    · intro c hc
      rw [List.mem_cons] at hc
      rcases hc with h | h
      · omega
      · exact ih (n - maxN) (by omega) c h

lemma chunkSizes_ne_nil (maxN n : ℕ) (hn : n ≠ 0) : chunkSizes maxN n ≠ [] := by
  unfold chunkSizes
  split_ifs <;> simp_all

lemma two_le_chunkSizes_length (maxN n : ℕ) (hmax : 0 < maxN) (hn : maxN < n) :
    2 ≤ (chunkSizes maxN n).length := by
  unfold chunkSizes
  split_ifs with h0 hm hn'
  · omega
  · omega
  · omega
  · have h := chunkSizes_ne_nil maxN (n - maxN) (by omega)
    have := List.length_pos.mpr h
    simp only [List.length_cons]
    omega

/-- The chunk loop from a canonical state, over any run of chunk sizes within
the controller's bounds: outputs, callback log and final state all take their
closed forms. -/
lemma processLoop_spec (producer : ℕ → ℕ → ℚ) (p : ConverterParams)
    (ht : 0 < p.targetRate) :
    ∀ (cs : List ℕ) (a : ℕ), (∀ c ∈ cs, 1 ≤ c ∧ c ≤ p.maxFrameCount) →
    processLoop producer (stateAt producer p a) cs =
      (canonicalFrames producer p a cs.sum, chunkLog p a cs,
        stateAt producer p (a + cs.sum))
  | [], a, _ => by simp [processLoop, canonicalFrames, chunkLog]
  | c :: cs, a, hmem => by
    unfold processLoop
    dsimp only
    rw [processChunk_spec producer p a c ht (hmem c (by simp)).1
      (hmem c (by simp)).2]
    dsimp only
    rw [processLoop_spec producer p ht cs (a + c)
      (fun x hx => hmem x (by simp [hx]))]
    dsimp only
    simp only [List.sum_cons, chunkLog]
    rw [← canonicalFrames_append producer p a c cs.sum,
      show a + (c + cs.sum) = a + c + cs.sum by omega]

/-- drb_audio_converter_process from a canonical state: the requested frames
in closed form, one callback event per internal chunk, and the canonical state
advanced by the requested frame count. -/
lemma process_spec (producer : ℕ → ℕ → ℚ) (p : ConverterParams) (a n : ℕ)
    (ht : 0 < p.targetRate) (hmax : 0 < p.maxFrameCount) :
    drb_audio_converter_process producer (stateAt producer p a) n =
      (canonicalFrames producer p a n,
        chunkLog p a (chunkSizes p.maxFrameCount n),
        stateAt producer p (a + n)) := by
  unfold drb_audio_converter_process
  rw [show (stateAt producer p a).params = p from rfl,
    processLoop_spec producer p ht (chunkSizes p.maxFrameCount n) a
      (chunkSizes_mem p.maxFrameCount hmax n),
    chunkSizes_sum p.maxFrameCount n]

/-- The caller's slice loop from a canonical state: outputs and state depend
only on the total frame count, and the callback log is the concatenation of
the per-slice chunk logs. -/
lemma processSlices_spec (producer : ℕ → ℕ → ℚ) (p : ConverterParams)
    (ht : 0 < p.targetRate) (hmax : 0 < p.maxFrameCount) :
    ∀ (ss : List ℕ) (a : ℕ),
    processSlices producer (stateAt producer p a) ss =
      (canonicalFrames producer p a ss.sum,
        chunkLog p a (allChunks p.maxFrameCount ss),
        stateAt producer p (a + ss.sum))
  | [], a => by simp [processSlices, canonicalFrames, allChunks, chunkLog]
  | s :: ss, a => by
    unfold processSlices
    dsimp only
    rw [process_spec producer p a s ht hmax]
    dsimp only
    rw [processSlices_spec producer p ht hmax ss (a + s)]
    dsimp only
    simp only [List.sum_cons, allChunks]
    rw [← canonicalFrames_append producer p a s ss.sum,
      show a + (s + ss.sum) = a + s + ss.sum by omega,
      chunkLog_append p a (chunkSizes p.maxFrameCount s)
        (allChunks p.maxFrameCount ss),
      chunkSizes_sum p.maxFrameCount s]

/-! ### Parameter immutability and latency bookkeeping -/

lemma renderN_params : ∀ (n : ℕ) (st : Converter),
    (renderN st n).2.params = st.params
  | 0, _ => rfl
  | n + 1, st => by
    unfold renderN
    dsimp only
    rw [renderN_params n]
    rfl

lemma processChunk_params (producer : ℕ → ℕ → ℚ) (st : Converter) (n : ℕ) :
    (processChunk producer st n).2.2.params = st.params := by
  unfold processChunk
  dsimp only
  rw [renderN_params]
  rfl

lemma processLoop_params (producer : ℕ → ℕ → ℚ) : ∀ (cs : List ℕ)
    (st : Converter), (processLoop producer st cs).2.2.params = st.params
  | [], _ => rfl
  | c :: cs, st => by
    unfold processLoop
    dsimp only
    rw [processLoop_params producer cs, processChunk_params]

lemma process_params (producer : ℕ → ℕ → ℚ) (st : Converter) (n : ℕ) :
    (drb_audio_converter_process producer st n).2.2.params = st.params := by
  unfold drb_audio_converter_process
  rw [processLoop_params]

/-- Every callback event of the chunk loop carries the latency recomputed from
the converter's immutable parameters. -/
lemma processLoop_latency (producer : ℕ → ℕ → ℚ) : ∀ (cs : List ℕ)
    (st : Converter),
    ((processLoop producer st cs).2.1).map Prod.fst =
      List.replicate (processLoop producer st cs).2.1.length
        (latencySeconds st.params)
  | [], _ => rfl
  | c :: cs, st => by
    unfold processLoop
    dsimp only
    simp only [List.map_cons, List.length_cons, List.replicate_succ]
    rw [processLoop_latency producer cs, processChunk_params]
    rfl

lemma process_latency (producer : ℕ → ℕ → ℚ) (st : Converter) (n : ℕ) :
    ((drb_audio_converter_process producer st n).2.1).map Prod.fst =
      List.replicate (drb_audio_converter_process producer st n).2.1.length
        (latencySeconds st.params) := by
  unfold drb_audio_converter_process
  rw [processLoop_latency]

lemma chunkLog_length (p : ConverterParams) : ∀ (cs : List ℕ) (a : ℕ),
    (chunkLog p a cs).length = cs.length
  | [], _ => rfl
  | c :: cs, a => by
    unfold chunkLog
    simp only [List.length_cons, chunkLog_length p cs]

/-! ### Source-request bounds for non-decimating ratios -/

lemma pos_add_le (p : ConverterParams) (ht : 0 < p.targetRate)
    (hst : p.sourceRate ≤ p.targetRate) (x y : ℕ) :
    pos p (x + y) ≤ pos p x + y := by
  unfold pos
  rw [show (x + y) * p.sourceRate = x * p.sourceRate + y * p.sourceRate by ring,
    ← div_add_step p.targetRate _ _ ht]
  have h1 : x * p.sourceRate % p.targetRate < p.targetRate := Nat.mod_lt _ ht
  have h2 : (x * p.sourceRate % p.targetRate + y * p.sourceRate) /
      p.targetRate < y + 1 := by
    rw [Nat.div_lt_iff_lt_mul ht]
    have h3 : y * p.sourceRate ≤ y * p.targetRate := Nat.mul_le_mul_left y hst
    have h4 : (y + 1) * p.targetRate = y * p.targetRate + p.targetRate := by ring
    omega
  omega

lemma pos_le_self (p : ConverterParams) (ht : 0 < p.targetRate)
    (hst : p.sourceRate ≤ p.targetRate) (k : ℕ) : pos p k ≤ k := by
  have h := pos_add_le p ht hst 0 k
  rw [Nat.zero_add] at h
  have h0 : pos p 0 = 0 := by simp [pos]
  omega

/-- With a non-decimating ratio, a chunk of c output frames consumes at most c
new source frames. -/
lemma consumed_incr_le (p : ConverterParams) (ht : 0 < p.targetRate)
    (hst : p.sourceRate ≤ p.targetRate) (a c : ℕ) (hc : 1 ≤ c) :
    consumedAt p (a + c) - consumedAt p a ≤ c := by
  obtain ⟨c', rfl⟩ : ∃ c', c = c' + 1 := ⟨c - 1, by omega⟩
  cases a with
  | zero =>
    have h1 : pos p c' ≤ c' := pos_le_self p ht hst c'
    have h2 : consumedAt p (0 + (c' + 1)) = pos p c' + 1 := by
      rw [Nat.zero_add]
      simp [consumedAt]
    have h3 : consumedAt p 0 = 0 := rfl
    omega
  | succ a' =>
    have h1 := pos_add_le p ht hst a' (c' + 1)
    have h2 : consumedAt p (a' + 1 + (c' + 1)) = pos p (a' + (c' + 1)) + 1 := by
      have e1 : a' + 1 + (c' + 1) = (a' + (c' + 1)) + 1 := by omega
      rw [e1]
      simp [consumedAt]
    have h3 : consumedAt p (a' + 1) = pos p a' + 1 := by simp [consumedAt]
    omega

/-- With a non-decimating ratio, every callback event in the closed-form log
requests at most maxFrameCount source frames. -/
lemma chunkLog_snd_le (p : ConverterParams) (ht : 0 < p.targetRate)
    (hst : p.sourceRate ≤ p.targetRate) : ∀ (cs : List ℕ) (a : ℕ),
    (∀ c ∈ cs, 1 ≤ c ∧ c ≤ p.maxFrameCount) →
    ∀ e ∈ chunkLog p a cs, e.2 ≤ p.maxFrameCount
  | [], _, _ => by simp [chunkLog]
  | c :: cs, a, hmem => by
    unfold chunkLog
    intro e he
    rw [List.mem_cons] at he
    rcases he with h | h
    · have h1 := (hmem c (by simp)).1
      have h2 := (hmem c (by simp)).2
      have h3 := consumed_incr_le p ht hst a c h1
      subst h
      dsimp only
      omega
    · exact chunkLog_snd_le p ht hst cs (a + c)
        (fun x hx => hmem x (by simp [hx])) e h

/-! ### Rational reading of the PhaseAccumulator -/

lemma natDivMod_toRat (q t : ℕ) (ht : 0 < t) :
    ((q / t : ℕ) : ℚ) + ((q % t : ℕ) : ℚ) / (t : ℚ) = (q : ℚ) / (t : ℚ) := by
  have htQ : (t : ℚ) ≠ 0 := by exact_mod_cast ht.ne'
  have h : (t * (q / t) + q % t : ℕ) = q := Nat.div_add_mod q t
  have hQ : ((t : ℚ)) * ((q / t : ℕ) : ℚ) + ((q % t : ℕ) : ℚ) = (q : ℚ) := by
    exact_mod_cast congrArg (fun x : ℕ => (x : ℚ)) h
  field_simp
  linarith

lemma phasePosition_stateAt (producer : ℕ → ℕ → ℚ) (p : ConverterParams)
    (k : ℕ) (ht : 0 < p.targetRate) :
    phasePosition (stateAt producer p k) =
      (k : ℚ) * (p.sourceRate : ℚ) / (p.targetRate : ℚ) := by
  unfold phasePosition
  rw [show (stateAt producer p k).phaseInt = pos p k from rfl,
    show (stateAt producer p k).phaseNum = phaseRem p k from rfl,
    show (stateAt producer p k).params = p from rfl]
  unfold pos phaseRem
  rw [natDivMod_toRat (k * p.sourceRate) p.targetRate ht]
  push_cast
  ring

lemma validParams_iff (s t c m : ℕ) :
    ¬ validParams s t c m ↔
      (s ∉ supported_sampling_rates ∨ t ∉ supported_sampling_rates ∨
        c = 0 ∨ m = 0) := by
  unfold validParams
  rw [Nat.pos_iff_ne_zero, Nat.pos_iff_ne_zero]
  tauto

/-! ### The claims -/

/-- C1: for every fixed total frame count and every partition of it into
non-negative per-call slice sizes, calling process() once per slice (output
offsets advanced by the slice sizes, modelled by concatenation) produces the
same output samples as a single process() call for the total — exactly, in the
rational model — and moreover the two runs end in the same converter state,
because History and PhaseAccumulator persist across calls. -/
theorem slice_invariance (p : ConverterParams) (producer : ℕ → ℕ → ℚ)
    (ss : List ℕ) (ht : 0 < p.targetRate) (hmax : 0 < p.maxFrameCount) :
    (processSlices producer (initConverter p) ss).1 =
      (drb_audio_converter_process producer (initConverter p) ss.sum).1 ∧
    (processSlices producer (initConverter p) ss).2.2 =
      (drb_audio_converter_process producer (initConverter p) ss.sum).2.2 := by
  rw [initConverter_eq_stateAt producer p,
    processSlices_spec producer p ht hmax ss 0,
    process_spec producer p 0 ss.sum ht hmax]
  exact ⟨rfl, rfl⟩

theorem slice_invariance_witness :
    0 < example_params.targetRate ∧ 0 < example_params.maxFrameCount ∧
    ((processSlices exampleProducer (initConverter example_params) [1, 2]).1 =
        (drb_audio_converter_process exampleProducer
          (initConverter example_params) ([1, 2] : List ℕ).sum).1 ∧
      (processSlices exampleProducer (initConverter example_params) [1, 2]).2.2 =
        (drb_audio_converter_process exampleProducer
          (initConverter example_params) ([1, 2] : List ℕ).sum).2.2) :=
  ⟨by decide, by decide,
    slice_invariance example_params exampleProducer [1, 2] (by decide) (by decide)⟩

/-- C2: for every sequence of process() calls whose requested frame counts sum
to F, exactly F output frames are produced in total, and the frame at each
output index i is the canonical stream frame i — each frame exactly once, in
stream order. -/
theorem frame_conservation (p : ConverterParams) (producer : ℕ → ℕ → ℚ)
    (ss : List ℕ) (ht : 0 < p.targetRate) (hmax : 0 < p.maxFrameCount) :
    (processSlices producer (initConverter p) ss).1.length = ss.sum ∧
    (processSlices producer (initConverter p) ss).1 =
      canonicalFrames producer p 0 ss.sum := by
  rw [initConverter_eq_stateAt producer p,
    processSlices_spec producer p ht hmax ss 0]
  constructor
  · simp [canonicalFrames]
  · rfl

theorem frame_conservation_witness :
    0 < example_params.targetRate ∧ 0 < example_params.maxFrameCount ∧
    ((processSlices exampleProducer (initConverter example_params)
        [2, 0, 3]).1.length = ([2, 0, 3] : List ℕ).sum ∧
      (processSlices exampleProducer (initConverter example_params)
          [2, 0, 3]).1 =
        canonicalFrames exampleProducer example_params 0
          ([2, 0, 3] : List ℕ).sum) :=
  ⟨by decide, by decide,
    frame_conservation example_params exampleProducer [2, 0, 3] (by decide)
      (by decide)⟩

/-- C3 (amended: restricted to non-decimating ratios, sourceRate ≤
targetRate): a process() call requesting more frames than maxFrameCount is
split internally into at least two chunks; the producer callback is invoked
exactly once per internal chunk; every invocation requests at most
maxFrameCount frames; and the combined output equals that of any split of the
same total into several smaller calls.  For decimating ratios the per-chunk
source request can exceed maxFrameCount — see
boundary_chunking_counterexample. -/
theorem boundary_chunking (p : ConverterParams) (producer : ℕ → ℕ → ℚ) (n : ℕ)
    (ht : 0 < p.targetRate) (hmax : 0 < p.maxFrameCount)
    (hst : p.sourceRate ≤ p.targetRate) (hn : p.maxFrameCount < n) :
    2 ≤ (drb_audio_converter_process producer (initConverter p) n).2.1.length ∧
    (drb_audio_converter_process producer (initConverter p) n).2.1.length =
      (chunkSizes p.maxFrameCount n).length ∧
    (∀ e ∈ (drb_audio_converter_process producer (initConverter p) n).2.1,
      e.2 ≤ p.maxFrameCount) ∧
    (∀ ss : List ℕ, ss.sum = n →
      (processSlices producer (initConverter p) ss).1 =
        (drb_audio_converter_process producer (initConverter p) n).1) := by
  rw [initConverter_eq_stateAt producer p, process_spec producer p 0 n ht hmax]
  dsimp only
  refine ⟨?_, ?_, ?_, ?_⟩
  · rw [chunkLog_length]
    exact two_le_chunkSizes_length p.maxFrameCount n hmax hn
  · exact chunkLog_length p (chunkSizes p.maxFrameCount n) 0
  · exact chunkLog_snd_le p ht hst (chunkSizes p.maxFrameCount n) 0
      (chunkSizes_mem p.maxFrameCount hmax n)
  · intro ss hss
    rw [processSlices_spec producer p ht hmax ss 0]
    dsimp only
    rw [hss]

theorem boundary_chunking_witness :
    0 < example_params.targetRate ∧ 0 < example_params.maxFrameCount ∧
    example_params.sourceRate ≤ example_params.targetRate ∧
    example_params.maxFrameCount < 300 ∧
    (2 ≤ (drb_audio_converter_process exampleProducer
        (initConverter example_params) 300).2.1.length ∧
      (drb_audio_converter_process exampleProducer
          (initConverter example_params) 300).2.1.length =
        (chunkSizes example_params.maxFrameCount 300).length ∧
      (∀ e ∈ (drb_audio_converter_process exampleProducer
          (initConverter example_params) 300).2.1,
        e.2 ≤ example_params.maxFrameCount) ∧
      (∀ ss : List ℕ, ss.sum = 300 →
        (processSlices exampleProducer (initConverter example_params) ss).1 =
          (drb_audio_converter_process exampleProducer
            (initConverter example_params) 300).1)) :=
  ⟨by decide, by decide, by decide, by decide,
    boundary_chunking example_params exampleProducer 300 (by decide)
      (by decide) (by decide) (by decide)⟩

/-- C3, original claim refuted: for the decimating supported pair
48000 → 44100 with maxFrameCount 256, a single process() call for 300 frames
issues a producer-callback invocation requesting 278 > 256 source frames — the
first chunk of 256 output frames needs ⌊255·48000/44100⌋ + 1 = 278 new source
frames — so "at most max frame count frames per invocation" fails for this
converter. -/
theorem boundary_chunking_counterexample :
    ¬ (∀ e ∈ (drb_audio_converter_process exampleProducer
        (initConverter decimating_params) 300).2.1,
      e.2 ≤ decimating_params.maxFrameCount) := by
  intro hall
  have hcs : chunkSizes 256 300 = [256, 44] := by
    rw [chunkSizes]
    rw [dif_neg (by norm_num), dif_neg (by norm_num), dif_neg (by norm_num)]
    norm_num
    rw [chunkSizes]
    rw [dif_neg (by norm_num), dif_neg (by norm_num), dif_pos (by norm_num)]
  have hlog : (drb_audio_converter_process exampleProducer
      (initConverter decimating_params) 300).2.1 =
      chunkLog decimating_params 0 [256, 44] := by
    rw [initConverter_eq_stateAt exampleProducer decimating_params,
      process_spec exampleProducer decimating_params 0 300 (by decide)
        (by decide)]
    dsimp only
    rw [show decimating_params.maxFrameCount = 256 from rfl, hcs]
  rw [hlog] at hall
  simp only [chunkLog] at hall
  have h1 := hall _ (List.mem_cons_self _ _)
  exact absurd h1 (by decide)

/-- C4: the latency value passed to the producer callback equals the constant
latencySeconds of the converter's immutable parameters on every callback
invocation, across every sequence of process() calls, from any starting
state. -/
theorem latency_stability (producer : ℕ → ℕ → ℚ) (st : Converter)
    (ss : List ℕ) :
    ((processSlices producer st ss).2.1).map Prod.fst =
      List.replicate (processSlices producer st ss).2.1.length
        (latencySeconds st.params) := by
  induction ss generalizing st with
  | nil => rfl
  | cons s ss ih =>
    unfold processSlices
    dsimp only
    simp only [List.map_append, List.length_append, List.replicate_add]
    rw [process_latency producer st s,
      ih ((drb_audio_converter_process producer st s).2.2),
      process_params producer st s]

/-- C5: the planning entry point fails (returns none, the C API's negative
result) exactly on an unsupported rate pair, a zero channel count or a zero
max frame count; construction fails (returns none, the C API's null result)
exactly on those conditions or on misaligned or undersized caller memory;
hence for all valid parameters and conforming memory both succeed, and both
are total functions (no crash). -/
theorem construction_validation (sourceRate targetRate channelCount
    maxFrameCount : ℕ) (direction : Direction) (quality : Quality)
    (memoryAddr memorySize : ℕ) :
    (drb_audio_converter_alignment_and_size sourceRate targetRate channelCount
        maxFrameCount direction quality = none ↔
      sourceRate ∉ supported_sampling_rates ∨
        targetRate ∉ supported_sampling_rates ∨ channelCount = 0 ∨
        maxFrameCount = 0) ∧
    (drb_audio_converter_construct memoryAddr memorySize sourceRate targetRate
        channelCount maxFrameCount direction quality = none ↔
      sourceRate ∉ supported_sampling_rates ∨
        targetRate ∉ supported_sampling_rates ∨ channelCount = 0 ∨
        maxFrameCount = 0 ∨ ¬ memoryAddr % converter_alignment = 0 ∨
        ¬ converter_size ⟨sourceRate, targetRate, channelCount, maxFrameCount,
            direction, quality⟩ ≤ memorySize) := by
  have hv := validParams_iff sourceRate targetRate channelCount maxFrameCount
  constructor
  · rw [← hv]
    unfold drb_audio_converter_alignment_and_size
    split_ifs with h
    · simp [h]
    · simp [h]
  · unfold drb_audio_converter_construct drb_audio_converter_alignment_and_size
    by_cases h : validParams sourceRate targetRate channelCount maxFrameCount
    · rw [if_pos h]
      dsimp only
      split_ifs with h2
      · have hval := h
        unfold validParams at hval
        simp only [reduceCtorEq, false_iff]
        push_neg
        exact ⟨hval.1, hval.2.1, by omega, by omega, h2.1, h2.2⟩
      · simp only [true_iff]
        tauto
    · rw [if_neg h]
      dsimp only
      simp only [true_iff]
      have hD := hv.mp h
      tauto

/-- C6: determinism — two runs with identical construction parameters,
identical producer-delivered samples (pointwise-equal producers) and identical
call slicing yield identical outputs, callback events and final states. -/
theorem determinism (p : ConverterParams) (producer1 producer2 : ℕ → ℕ → ℚ)
    (ss : List ℕ) (h : ∀ c i, producer1 c i = producer2 c i) :
    processSlices producer1 (initConverter p) ss =
      processSlices producer2 (initConverter p) ss := by
  have hp : producer1 = producer2 := funext fun c => funext fun i => h c i
  rw [hp]

theorem determinism_witness :
    (∀ c i, exampleProducer c i = altProducer c i) ∧
    processSlices exampleProducer (initConverter example_params) [3] =
      processSlices altProducer (initConverter example_params) [3] := by
  have h : ∀ c i, exampleProducer c i = altProducer c i := by
    intro c i
    unfold exampleProducer altProducer
    ring
  exact ⟨h, determinism example_params exampleProducer altProducer [3] h⟩

/-- C7: a process() call requesting zero frames is a no-op — it writes no
output frames, invokes the producer callback zero times, and leaves the
converter state (History, PhaseAccumulator, consumption) unchanged. -/
theorem zero_frames_noop (producer : ℕ → ℕ → ℚ) (st : Converter) :
    (drb_audio_converter_process producer st 0).1 = [] ∧
    (drb_audio_converter_process producer st 0).2.1 = [] ∧
    (drb_audio_converter_process producer st 0).2.2 = st := by
  unfold drb_audio_converter_process
  rw [chunkSizes_zero]
  exact ⟨rfl, rfl, rfl⟩

/-- C8: the PhaseAccumulator advances by exactly sourceRate/targetRate per
output frame with integer and fractional parts kept separate, and after any
number of frames (any slicing, any total, including tens of thousands) the
tracked fractional input position equals the exact rational position — so the
divergence is 0, in particular at most one sample period. -/
theorem phase_accumulator_exact (p : ConverterParams) (producer : ℕ → ℕ → ℚ)
    (ss : List ℕ) (ht : 0 < p.targetRate) (hmax : 0 < p.maxFrameCount) :
    (∀ st : Converter, st.params = p →
      phasePosition (renderFrame st).2 =
        phasePosition st + (p.sourceRate : ℚ) / (p.targetRate : ℚ)) ∧
    phasePosition (processSlices producer (initConverter p) ss).2.2 =
      (ss.sum : ℚ) * (p.sourceRate : ℚ) / (p.targetRate : ℚ) ∧
    |phasePosition (processSlices producer (initConverter p) ss).2.2 -
        (ss.sum : ℚ) * (p.sourceRate : ℚ) / (p.targetRate : ℚ)| ≤ 1 := by
  have hfinal : phasePosition
      (processSlices producer (initConverter p) ss).2.2 =
      (ss.sum : ℚ) * (p.sourceRate : ℚ) / (p.targetRate : ℚ) := by
    rw [initConverter_eq_stateAt producer p,
      processSlices_spec producer p ht hmax ss 0]
    dsimp only
    rw [Nat.zero_add]
    exact phasePosition_stateAt producer p ss.sum ht
  refine ⟨?_, hfinal, by rw [hfinal]; simp⟩
  intro st hstp
  unfold phasePosition renderFrame
  dsimp only
  rw [hstp]
  push_cast
  rw [add_assoc, natDivMod_toRat (st.phaseNum + p.sourceRate) p.targetRate ht]
  push_cast
  ring

theorem phase_accumulator_exact_witness :
    0 < example_params.targetRate ∧ 0 < example_params.maxFrameCount ∧
    ((∀ st : Converter, st.params = example_params →
        phasePosition (renderFrame st).2 =
          phasePosition st + (example_params.sourceRate : ℚ) /
            (example_params.targetRate : ℚ)) ∧
      phasePosition (processSlices exampleProducer
          (initConverter example_params) [40000]).2.2 =
        (([40000] : List ℕ).sum : ℚ) * (example_params.sourceRate : ℚ) /
          (example_params.targetRate : ℚ) ∧
      |phasePosition (processSlices exampleProducer
          (initConverter example_params) [40000]).2.2 -
          (([40000] : List ℕ).sum : ℚ) * (example_params.sourceRate : ℚ) /
            (example_params.targetRate : ℚ)| ≤ 1) :=
  ⟨by decide, by decide,
    phase_accumulator_exact example_params exampleProducer [40000] (by decide)
      (by decide)⟩

/-- C9: on success, the handle returned by drb_audio_converter_construct is
the caller-supplied memory address itself — so passing the raw backing memory
pointer to drb_audio_converter_process, as the example does, operates on the
same converter. -/
theorem construct_returns_caller_memory (memoryAddr memorySize sourceRate
    targetRate channelCount maxFrameCount : ℕ) (direction : Direction)
    (quality : Quality) (r : ℕ × Converter)
    (h : r ∈ drb_audio_converter_construct memoryAddr memorySize sourceRate
      targetRate channelCount maxFrameCount direction quality) :
    r.1 = memoryAddr := by
  unfold drb_audio_converter_construct at h
  split at h
  · simp at h
  · split_ifs at h
    · simp only [Option.mem_def, Option.some.injEq] at h
      rw [← h]
    · simp at h

theorem construct_returns_caller_memory_witness :
    (64, initConverter ⟨44100, 44100, 1, 1, Direction.pull, Quality.low⟩) ∈
      drb_audio_converter_construct 64 1000 44100 44100 1 1 Direction.pull
        Quality.low ∧
    ((64 : ℕ), initConverter ⟨44100, 44100, 1, 1, Direction.pull,
      Quality.low⟩).1 = 64 :=
  ⟨Option.mem_def.mpr (by decide),
    construct_returns_caller_memory 64 1000 44100 44100 1 1 Direction.pull
      Quality.low _ (Option.mem_def.mpr (by decide))⟩

/-- C10: the example's slices sum to exactly total_frame_count = 400 and every
prefix sum is at most 400, so the loop assertion offset ≤ total_frame_count
holds after every iteration and each buffer pointer samples[channel] + offset
together with its slice stays within the 400-frame output array. -/
theorem example_slices_within_bounds :
    slices.sum = total_frame_count ∧
    ∀ i : ℕ, (slices.take i).sum ≤ total_frame_count := by
  constructor
  · decide
  · intro i
    have h1 : (slices.take i).sum + (slices.drop i).sum = slices.sum := by
      rw [← List.sum_append, List.take_append_drop]
    have h2 : slices.sum = total_frame_count := by decide
    omega

end DrB
